import Mathlib

/-!
Shallow embedding of the METEOR core engines:
`src/meteor/core/stats.py`, `src/meteor/core/timeseries.py`, and the error
taxonomy of `src/meteor/utils.py`.

Conventions of the embedding:
* Python float arithmetic is modelled exactly over `ℚ` where the code only
  adds/multiplies/divides, and over `ℝ` where `sqrt`/`log2` appear.
* IEEE sentinel values (`nan`, `±inf`) are modelled by explicit constructors
  (`PyQ`, `PyR`, `HDist`); an IEEE division producing them is modelled by
  `pyDivR`.
* numpy arrays are flat `List`s (row-major flattening, which is exactly what
  the code itself does before any aggregate it computes), a 2-D array is
  `Arr2`, a 3-D boolean mask for `argwhere` is `Mask3`.
* A Python function that can raise returns `Except PyExc _`; `PyExc` lists
  the exception types that actually occur (the repo's own taxonomy from
  `utils.py` plus numpy's `IndexError`).
* `scipy.signal.welch` is third-party numerics; it enters the embedding as an
  explicit function parameter `welch` so that statements hold for every
  possible PSD backend.
-/

/-- Scalar float restricted to the exact-rational fragment: `nan` or a
rational value. -/
inductive PyQ where
  | nan : PyQ
  | num (x : ℚ) : PyQ
deriving DecidableEq

/-- Scalar float over the reals: `nan`, `+inf`, `-inf` or a real value. -/
inductive PyR where
  | nan : PyR
  | inf : PyR
  | ninf : PyR
  | num (x : ℝ) : PyR

/-- Exception types that can actually surface from the embedded code:
numpy's `IndexError` (boolean-index length mismatch) and the three typed
errors `utils.py` defines (`DimensionMismatchError`, `EmptyROIError`,
`OrientationMismatchError`).  Note there is no `ShapeMismatch` and no
`InvalidSpacing` constructor: no such exception type exists in the
repository. -/
inductive PyExc where
  | indexError : PyExc
  | dimensionMismatch : PyExc
  | emptyROI : PyExc
  | orientationMismatch : PyExc
deriving DecidableEq

/-- `np.min` over a flat nonempty sample (0 on the empty list, unreachable
in the guarded call sites). -/
def listMinQ : List ℚ → ℚ
  | [] => 0
  | x :: xs => xs.foldl min x

/-- `np.max` over a flat nonempty sample. -/
def listMaxQ : List ℚ → ℚ
  | [] => 0
  | x :: xs => xs.foldl max x

/-- `np.mean`: sum divided by length. -/
def meanQ (l : List ℚ) : ℚ := l.sum / l.length

/-- Population variance (`np.std`/`np.var` default `ddof=0`):
mean of squared deviations. -/
def varQ (l : List ℚ) : ℚ := (l.map (fun x => (x - meanQ l) ^ 2)).sum / l.length

/-- `np.std`: square root of the population variance. -/
noncomputable def npStd (l : List ℚ) : ℝ := Real.sqrt ((varQ l : ℚ) : ℝ)

/-- `np.median`: middle order statistic, or the mean of the two middle ones
for even length. -/
def npMedian (l : List ℚ) : ℚ :=
  let s := l.mergeSort (fun a b => a ≤ b)
  if l.length % 2 = 1 then s.getD (l.length / 2) 0
  else (s.getD (l.length / 2 - 1) 0 + s.getD (l.length / 2) 0) / 2

/-- `np.percentile` with the default linear interpolation between order
statistics. -/
def npPercentile (l : List ℚ) (q : ℚ) : ℚ :=
  let s := l.mergeSort (fun a b => a ≤ b)
  let pos := q / 100 * ((l.length : ℚ) - 1)
  let lo := (⌊pos⌋).toNat
  let frac := pos - (⌊pos⌋ : ℚ)
  if lo + 1 < l.length then s.getD lo 0 + frac * (s.getD (lo + 1) 0 - s.getD lo 0)
  else s.getD lo 0

/-- `k`-th central moment (the building block of `scipy.stats.skew` and
`scipy.stats.kurtosis`). -/
def centralMoment (l : List ℚ) (k : ℕ) : ℚ :=
  (l.map (fun x => (x - meanQ l) ^ k)).sum / l.length

/-- Result record of `compute_basic_stats` (`src/meteor/core/stats.py`). -/
structure BasicStats where
  min : PyQ
  max : PyQ
  mean : PyQ
  median : PyQ
  std : PyR

/-- `compute_basic_stats` (`src/meteor/core/stats.py`): on an empty sample
every field is NaN; otherwise min/max/mean/median/std of the sample. -/
noncomputable def compute_basic_stats (data : List ℚ) : BasicStats :=
  match data with
  | [] => ⟨.nan, .nan, .nan, .nan, .nan⟩
  | x :: xs =>
    { min := .num (listMinQ (x :: xs))
      max := .num (listMaxQ (x :: xs))
      mean := .num (meanQ (x :: xs))
      median := .num (npMedian (x :: xs))
      std := .num (npStd (x :: xs)) }

/-- Result record of `compute_additional_stats`. -/
structure AdditionalStats where
  skew : PyR
  kurtosis : PyQ
  p25 : PyQ
  p75 : PyQ

/-- `compute_additional_stats` (`src/meteor/core/stats.py`): NaN fields on an
empty sample; otherwise biased skewness `m3 / m2^(3/2)`, excess kurtosis
`m4 / m2^2 - 3` (both NaN for a zero-variance sample, mirroring the IEEE
`0/0` scipy produces there), and the interpolated 25th/75th percentiles. -/
noncomputable def compute_additional_stats (data : List ℚ) : AdditionalStats :=
  match data with
  | [] => ⟨.nan, .nan, .nan, .nan⟩
  | x :: xs =>
    let l := x :: xs
    let m2 := centralMoment l 2
    { skew := if m2 = 0 then .nan
              else .num (((centralMoment l 3 : ℚ) : ℝ) / Real.sqrt (((m2 ^ 3 : ℚ) : ℝ)))
      kurtosis := if m2 = 0 then .nan else .num (centralMoment l 4 / m2 ^ 2 - 3)
      p25 := .num (npPercentile l 25)
      p75 := .num (npPercentile l 75) }

/-- Bin index of `x` for `np.histogram` with uniform bins `[lo, lo+width, …]`:
floor division, with the final edge inclusive (clamp to `nbins - 1`). -/
def binIdx (lo width : ℚ) (nbins : ℕ) (x : ℚ) : ℕ :=
  min (⌊(x - lo) / width⌋).toNat (nbins - 1)

/-- `np.histogram(data, bins=nbins, density=True)`: equal-width bins over
`[min, max]` (widened to `[min - 1/2, max + 1/2]` when the sample is
constant, as numpy does), counts divided by `N * width` so that the result
is a density, not a probability. -/
def histogram (data : List ℚ) (nbins : ℕ) : List ℚ :=
  let lo0 := listMinQ data
  let hi0 := listMaxQ data
  let lo := if lo0 = hi0 then lo0 - 1 / 2 else lo0
  let hi := if lo0 = hi0 then hi0 + 1 / 2 else hi0
  let width := (hi - lo) / (nbins : ℚ)
  (List.range nbins).map (fun i =>
    ((data.countP (fun x => binIdx lo width nbins x == i) : ℕ) : ℚ) /
      ((data.length : ℚ) * width))

/-- `compute_entropy` (`src/meteor/core/stats.py`): NaN on an empty sample,
otherwise `-Σ h·log2 h` over the positive entries `h` of the density
histogram. -/
noncomputable def compute_entropy (data : List ℚ) (nbins : ℕ) : PyR :=
  if data = [] then .nan
  else
    let hist := (histogram data nbins).filter (fun h => 0 < h)
    .num (-(hist.map (fun h => (h : ℝ) * Real.logb 2 (h : ℝ))).sum)

/-- `mask.sum()` for a flat boolean mask. -/
def countT (l : List Bool) : ℕ := l.count true

/-- `compute_volume` (`src/meteor/core/stats.py`): voxel count times
`spacing[0]*spacing[1]*spacing[2]`.  The body performs no validation and
cannot raise, hence the unconditional `Except.ok`. -/
def compute_volume (roi_mask : List Bool) (spacing : ℚ × ℚ × ℚ) :
    Except PyExc ℚ :=
  .ok ((countT roi_mask : ℚ) * (spacing.1 * spacing.2.1 * spacing.2.2))

/-- `dice_coefficient` (`src/meteor/core/stats.py`):
`2·|A∩B| / (|A|+|B|)`, with an explicit `0.0` when both masks are empty. -/
def dice_coefficient (mask1 mask2 : List Bool) : ℚ :=
  let intersect := countT (List.zipWith and mask1 mask2)
  let size1 := countT mask1
  let size2 := countT mask2
  let denom := size1 + size2
  if denom = 0 then 0
  else 2 * (intersect : ℚ) / ((denom : ℕ) : ℚ)

/-- A 3-D boolean mask with explicit dimensions, as consumed by
`hausdorff_distance`. -/
structure Mask3 where
  d1 : ℕ
  d2 : ℕ
  d3 : ℕ
  val : ℕ → ℕ → ℕ → Bool

/-- `np.argwhere`: row-major list of the index triples of true voxels. -/
def argwhere (m : Mask3) : List (ℕ × ℕ × ℕ) :=
  (List.range m.d1).flatMap (fun i =>
    (List.range m.d2).flatMap (fun j =>
      (List.range m.d3).filterMap (fun k =>
        if m.val i j k then some (i, j, k) else none)))

/-- Multiplication of an index triple by the spacing triple, landing in
physical coordinates. -/
def scaleCoord (s : ℚ × ℚ × ℚ) (c : ℕ × ℕ × ℕ) : ℝ × ℝ × ℝ :=
  (((c.1 : ℚ) * s.1 : ℚ), ((c.2.1 : ℚ) * s.2.1 : ℚ), ((c.2.2 : ℚ) * s.2.2 : ℚ))

/-- Euclidean distance in `ℝ³` (`scipy.spatial.distance.cdist` with the
`euclidean` metric). -/
noncomputable def edist3 (p q : ℝ × ℝ × ℝ) : ℝ :=
  Real.sqrt ((p.1 - q.1) ^ 2 + (p.2.1 - q.2.1) ^ 2 + (p.2.2 - q.2.2) ^ 2)

/-- Minimum of a nonempty list of reals (`dists.min(axis=…)`). -/
noncomputable def listMinR : List ℝ → ℝ
  | [] => 0
  | x :: xs => xs.foldl min x

/-- Maximum of a nonempty list of reals (`….max()`). -/
noncomputable def listMaxR : List ℝ → ℝ
  | [] => 0
  | x :: xs => xs.foldl max x

/-- Directed Hausdorff distance: max over points of the first cloud of the
min distance to the second cloud. -/
noncomputable def directedHaus (as bs : List (ℝ × ℝ × ℝ)) : ℝ :=
  listMaxR (as.map (fun p => listMinR (bs.map (fun q => edist3 p q))))

/-- Result of `hausdorff_distance`: `float('inf')` or a finite value. -/
inductive HDist where
  | inf : HDist
  | val (r : ℝ) : HDist

/-- `hausdorff_distance` (`src/meteor/core/stats.py`): `+inf` when either
mask has no true voxel, else the symmetric max of the two directed
distances between the spacing-scaled voxel coordinates. -/
noncomputable def hausdorff_distance (m1 m2 : Mask3) (spacing : ℚ × ℚ × ℚ) :
    HDist :=
  let coords1 := argwhere m1
  let coords2 := argwhere m2
  if coords1.length = 0 ∨ coords2.length = 0 then .inf
  else
    let c1 := coords1.map (scaleCoord spacing)
    let c2 := coords2.map (scaleCoord spacing)
    .val (max (directedHaus c1 c2) (directedHaus c2 c1))

/-- A rectangular 2-D array `(rows, cols)`, the shape `img_4d` has after the
code's own `reshape(t_points, -1)`. -/
structure Arr2 where
  rows : ℕ
  cols : ℕ
  val : ℕ → ℕ → ℚ

/-- Boolean-mask selection of one time row: the values at the columns where
the flat mask is true, in column order. -/
def roiRow (img : Arr2) (mask : List Bool) (t : ℕ) : List ℚ :=
  (List.range img.cols).filterMap (fun j =>
    if mask.getD j false then some (img.val t j) else none)

/-- The Time Series Bundle returned by `extract_timeseries`. -/
structure TSBundle where
  timeseries : List (List ℚ)
  mean_curve : List PyQ
  std_curve : List PyR

/-- `extract_timeseries` (`src/meteor/core/timeseries.py`), after the
reshape to `(T, N)`: numpy boolean indexing `img_flat[:, mask_flat]` raises
`IndexError` when the flat mask length differs from the spatial element
count; otherwise the per-voxel rows plus across-voxel mean/std curves
(NaN entries when the mask selects no voxel). -/
noncomputable def extract_timeseries (img : Arr2) (mask : List Bool) :
    Except PyExc TSBundle :=
  if mask.length ≠ img.cols then .error .indexError
  else
    let rows := (List.range img.rows).map (fun t => roiRow img mask t)
    .ok { timeseries := rows
          mean_curve := rows.map (fun r =>
            if r.length = 0 then PyQ.nan else .num (meanQ r))
          std_curve := rows.map (fun r =>
            if r.length = 0 then PyR.nan else .num (npStd r)) }

/-- `np.diff` of a 1-D series: consecutive differences `x[i+1] - x[i]`. -/
def npDiff (l : List ℚ) : List ℚ := List.zipWith (fun a b => b - a) l l.tail

/-- `np.argmax`: index of the first occurrence of the maximum. -/
def argmax (l : List ℚ) : ℕ := l.indexOf (listMaxQ l)

/-- `np.sum(psd[freqs < c]) if any(freqs < c) else 0`. -/
def powerBelow (freqs psd : List ℚ) (c : ℚ) : ℚ :=
  if freqs.any (fun f => decide (f < c)) then
    ((List.zip freqs psd).filterMap (fun fp =>
      if fp.1 < c then some fp.2 else none)).sum
  else 0

open scoped Classical in
/-- `compute_temporal_features` (`src/meteor/core/timeseries.py`) on a 1-D
curve (a matrix input is first reduced to its across-voxel mean curve by the
same function).  `welch` stands for `scipy.signal.welch`, returning the pair
(frequencies, power spectral density) from the curve and the sampling
frequency `1/tr`; it is a parameter so every statement below holds for any
PSD backend.  Feature order and the two guards (`len > 1`,
`tr is not None and len > 4`) mirror the source. -/
noncomputable def compute_temporal_features
    (welch : List ℚ → ℚ → List ℚ × List ℚ)
    (curve : List ℚ) (tr : Option ℚ) : List (String × ℝ) :=
  [("temporal_mean", ((meanQ curve : ℚ) : ℝ)),
   ("temporal_std", npStd curve),
   ("temporal_snr",
     if 0 < npStd curve then ((meanQ curve : ℚ) : ℝ) / npStd curve else 0),
   ("max_change", ((listMaxQ curve - listMinQ curve : ℚ) : ℝ)),
   ("peak_value", ((listMaxQ curve : ℚ) : ℝ)),
   ("time_to_peak", ((argmax curve : ℕ) : ℝ))] ++
  (if 1 < curve.length then
    [("mean_rate", ((meanQ (npDiff curve) : ℚ) : ℝ)),
     ("max_rate", ((listMaxQ (npDiff curve) : ℚ) : ℝ)),
     ("min_rate", ((listMinQ (npDiff curve) : ℚ) : ℝ))] ++
    (match tr with
     | none => []
     | some t =>
       if 4 < curve.length then
         let fp := welch curve (1 / t)
         [("peak_frequency", ((fp.1.getD (argmax fp.2) 0 : ℚ) : ℝ)),
          ("power_0_01Hz", ((powerBelow fp.1 fp.2 (1 / 100) : ℚ) : ℝ)),
          ("power_0_1Hz", ((powerBelow fp.1 fp.2 (1 / 10) : ℚ) : ℝ))]
       else [])
   else [])

/-- `np.diff(timeseries, axis=0)`: elementwise difference of consecutive
time rows. -/
def frameDiff (ts : List (List ℚ)) : List (List ℚ) :=
  List.zipWith (fun r1 r2 => List.zipWith (fun a b => b - a) r1 r2) ts ts.tail

/-- `np.mean(frame_diff, axis=1)`: across-voxel mean of each difference
row. -/
def meanDiffs (ts : List (List ℚ)) : List ℚ := (frameDiff ts).map meanQ

open scoped Classical in
/-- IEEE float division: `0/0` is NaN, `x/0` is a signed infinity for
`x ≠ 0`, otherwise the real quotient. -/
noncomputable def pyDivR (a b : ℝ) : PyR :=
  if b = 0 then (if a = 0 then .nan else if 0 < a then .inf else .ninf)
  else .num (a / b)

/-- `scipy.stats.zscore`: `(x - mean) / std` elementwise, IEEE semantics
(all-NaN output on a constant input, where `std = 0`). -/
noncomputable def npZscore (l : List ℚ) : List PyR :=
  l.map (fun x => pyDivR (((x : ℚ) : ℝ) - ((meanQ l : ℚ) : ℝ)) (npStd l))

/-- IEEE comparison `|v| > t` for a float scalar `v`: False when `v` is NaN,
True for `±inf`. -/
def pyAbsGt (v : PyR) (t : ℚ) : Prop :=
  match v with
  | .nan => False
  | .inf => True
  | .ninf => True
  | .num x => ((t : ℚ) : ℝ) < |x|

open scoped Classical in
/-- `detect_motion` (`src/meteor/core/timeseries.py`): z-score the
across-voxel means of the frame-to-frame differences and return, in
increasing order, the indices where `|z| > threshold`. -/
noncomputable def detect_motion (ts : List (List ℚ)) (threshold : ℚ) :
    List ℕ :=
  let z := npZscore (meanDiffs ts)
  (List.range z.length).filter (fun i => decide (pyAbsGt (z.getD i .nan) threshold))

/-- The concrete (5,5,5) test masks, row-major flattened: voxel `(z,y,x)`
is true when all three coordinates lie in `[lo, hi)`. -/
def cubeMask (lo hi : ℕ) : List Bool :=
  (List.range 125).map (fun idx =>
    decide (lo ≤ idx / 25 ∧ idx / 25 < hi ∧
            lo ≤ idx % 25 / 5 ∧ idx % 25 / 5 < hi ∧
            lo ≤ idx % 5 ∧ idx % 5 < hi))

/-- Order on float scalars as IEEE `<=` behaves on actual values: two
numbers compare by their rational values, and any comparison involving NaN
is false. -/
def pqLe : PyQ → PyQ → Prop
  | .num a, .num b => a ≤ b
  | _, _ => False

/-!  Helper lemmas about the embedded numpy primitives.  -/

theorem foldl_min_le_init (xs : List ℚ) (x : ℚ) : xs.foldl min x ≤ x := by
  induction xs generalizing x with
  | nil => simp
  | cons a as ih =>
    calc (a :: as).foldl min x = as.foldl min (min x a) := rfl
    _ ≤ min x a := ih _
    _ ≤ x := min_le_left _ _

theorem foldl_min_le_mem (xs : List ℚ) (x y : ℚ) (hy : y ∈ xs) :
    xs.foldl min x ≤ y := by
  induction xs generalizing x with
  | nil => cases hy
  | cons a as ih =>
    rcases List.mem_cons.mp hy with h | h
    · subst h
      calc (y :: as).foldl min x = as.foldl min (min x y) := rfl
      _ ≤ min x y := foldl_min_le_init _ _
      _ ≤ y := min_le_right _ _
    · exact ih _ h

theorem listMinQ_le {l : List ℚ} {y : ℚ} (hy : y ∈ l) : listMinQ l ≤ y := by
  cases l with
  | nil => cases hy
  | cons x xs =>
    rcases List.mem_cons.mp hy with h | h
    · subst h; exact foldl_min_le_init xs y
    · exact foldl_min_le_mem xs x y h

theorem init_le_foldl_max (xs : List ℚ) (x : ℚ) : x ≤ xs.foldl max x := by
  induction xs generalizing x with
  | nil => simp
  | cons a as ih =>
    calc x ≤ max x a := le_max_left _ _
    _ ≤ as.foldl max (max x a) := ih _
    _ = (a :: as).foldl max x := rfl

theorem mem_le_foldl_max (xs : List ℚ) (x y : ℚ) (hy : y ∈ xs) :
    y ≤ xs.foldl max x := by
  induction xs generalizing x with
  | nil => cases hy
  | cons a as ih =>
    rcases List.mem_cons.mp hy with h | h
    · subst h
      calc y ≤ max x y := le_max_right _ _
      _ ≤ as.foldl max (max x y) := init_le_foldl_max _ _
      _ = (y :: as).foldl max x := rfl
    · exact ih _ h

theorem le_listMaxQ {l : List ℚ} {y : ℚ} (hy : y ∈ l) : y ≤ listMaxQ l := by
  cases l with
  | nil => cases hy
  | cons x xs =>
    rcases List.mem_cons.mp hy with h | h
    · subst h; exact init_le_foldl_max xs y
    · exact mem_le_foldl_max xs x y h

theorem getD_mem {α : Type} {l : List α} {n : ℕ} {d : α} (h : n < l.length) :
    l.getD n d ∈ l := by
  rw [List.getD_eq_getElem l d h]
  exact List.getElem_mem h

theorem npMedian_bounds (x : ℚ) (xs : List ℚ) :
    listMinQ (x :: xs) ≤ npMedian (x :: xs) ∧
    npMedian (x :: xs) ≤ listMaxQ (x :: xs) := by
  have hperm := List.mergeSort_perm (x :: xs) (fun a b => a ≤ b)
  have hlen : ((x :: xs).mergeSort (fun a b => a ≤ b)).length = (x :: xs).length :=
    hperm.length_eq
  have hpos : 0 < (x :: xs).length := by simp
  unfold npMedian
  by_cases hodd : (x :: xs).length % 2 = 1
  · rw [if_pos hodd]
    have hidx : (x :: xs).length / 2 < ((x :: xs).mergeSort (fun a b => a ≤ b)).length := by
      rw [hlen]; exact Nat.div_lt_self hpos (by norm_num)
    have hmem : ((x :: xs).mergeSort (fun a b => a ≤ b)).getD ((x :: xs).length / 2) 0 ∈
        (x :: xs) := hperm.mem_iff.mp (getD_mem hidx)
    exact ⟨listMinQ_le hmem, le_listMaxQ hmem⟩
  · rw [if_neg hodd]
    have hidx2 : (x :: xs).length / 2 < ((x :: xs).mergeSort (fun a b => a ≤ b)).length := by
      rw [hlen]; exact Nat.div_lt_self hpos (by norm_num)
    have hidx1 : (x :: xs).length / 2 - 1 < ((x :: xs).mergeSort (fun a b => a ≤ b)).length :=
      lt_of_le_of_lt (Nat.sub_le _ _) hidx2
    have hm1 : ((x :: xs).mergeSort (fun a b => a ≤ b)).getD ((x :: xs).length / 2 - 1) 0 ∈
        (x :: xs) := hperm.mem_iff.mp (getD_mem hidx1)
    have hm2 : ((x :: xs).mergeSort (fun a b => a ≤ b)).getD ((x :: xs).length / 2) 0 ∈
        (x :: xs) := hperm.mem_iff.mp (getD_mem hidx2)
    have b1 := listMinQ_le hm1
    have b2 := listMinQ_le hm2
    have b3 := le_listMaxQ hm1
    have b4 := le_listMaxQ hm2
    constructor
    · linarith
    · linarith

theorem zipWith_and_self (A : List Bool) : List.zipWith and A A = A := by
  induction A with
  | nil => rfl
  | cons a as ih => simp [List.zipWith, ih]

/-!  Claim theorems.  -/

/-- Claim C3: on an empty intensity sample, `compute_basic_stats` returns
NaN for every field, `compute_additional_stats` returns NaN for every
field, and `compute_entropy` returns NaN; none of them raises. -/
theorem empty_sample_all_nan :
    compute_basic_stats [] = ⟨.nan, .nan, .nan, .nan, .nan⟩ ∧
    compute_additional_stats [] = ⟨.nan, .nan, .nan, .nan⟩ ∧
    compute_entropy [] 64 = .nan := by
  refine ⟨rfl, rfl, ?_⟩
  simp [compute_entropy]

/-- Claim C6: for every non-empty sample, the `min` field of
`compute_basic_stats` is at most the `median` field, which is at most the
`max` field. -/
theorem basic_stats_min_le_median_le_max (l : List ℚ) (h : l ≠ []) :
    pqLe (compute_basic_stats l).min (compute_basic_stats l).median ∧
    pqLe (compute_basic_stats l).median (compute_basic_stats l).max := by
  obtain ⟨x, xs, rfl⟩ : ∃ x xs, l = x :: xs := by
    cases l with
    | nil => exact absurd rfl h
    | cons x xs => exact ⟨x, xs, rfl⟩
  have hb := npMedian_bounds x xs
  exact ⟨hb.1, hb.2⟩

/-- Witness for C6 at the concrete sample `[3, 1, 2]`. -/
theorem basic_stats_min_le_median_le_max_witness :
    pqLe (compute_basic_stats [3, 1, 2]).min (compute_basic_stats [3, 1, 2]).median ∧
    pqLe (compute_basic_stats [3, 1, 2]).median (compute_basic_stats [3, 1, 2]).max :=
  basic_stats_min_le_median_le_max [3, 1, 2] (by decide)

/-- Claim C4: `dice_coefficient A B` equals `2·|A∩B| / (|A|+|B|)`;
`dice_coefficient A A = 1` for every mask with at least one true voxel;
two all-false masks give `0`; and the concrete (5,5,5) masks filled at
`[1:3,1:3,1:3]` and `[2:4,2:4,2:4]` give `0.125`. -/
theorem dice_formula_and_values :
    (∀ A B : List Bool,
       dice_coefficient A B =
         2 * ((countT (List.zipWith and A B) : ℕ) : ℚ) /
           (((countT A : ℕ) : ℚ) + ((countT B : ℕ) : ℚ))) ∧
    (∀ A : List Bool, 0 < countT A → dice_coefficient A A = 1) ∧
    (∀ n m : ℕ,
       dice_coefficient (List.replicate n false) (List.replicate m false) = 0) ∧
    dice_coefficient (cubeMask 1 3) (cubeMask 2 4) = 1 / 8 := by
  refine ⟨?_, ?_, ?_, ?_⟩
  · intro A B
    unfold dice_coefficient
    by_cases h : countT A + countT B = 0
    · have hA : countT A = 0 := by omega
      have hB : countT B = 0 := by omega
      simp [h, hA, hB]
    · rw [if_neg h]
      push_cast
      ring
  · intro A hA
    unfold dice_coefficient
    rw [zipWith_and_self]
    have hd : ¬(countT A + countT A = 0) := by omega
    rw [if_neg hd]
    have hcast : ((countT A + countT A : ℕ) : ℚ) = 2 * (countT A : ℚ) := by
      push_cast; ring
    rw [hcast]
    have hne : ((countT A : ℕ) : ℚ) ≠ 0 := Nat.cast_ne_zero.mpr (by omega)
    field_simp
  · intro n m
    unfold dice_coefficient
    simp [countT, List.count_replicate]
  · have h1 : countT (List.zipWith and (cubeMask 1 3) (cubeMask 2 4)) = 1 := by decide
    have h2 : countT (cubeMask 1 3) = 8 := by decide
    have h3 : countT (cubeMask 2 4) = 8 := by decide
    simp only [dice_coefficient, h1, h2, h3]
    norm_num

/-- Witness for C4: a one-voxel mask compared with itself has Dice 1. -/
theorem dice_formula_and_values_witness :
    dice_coefficient [true] [true] = 1 :=
  dice_formula_and_values.2.1 [true] (by decide)

/-- Counterexample for C1: `compute_volume` with the non-positive spacing
component `-1` does not fail with a typed error; it returns the value
`-1.0` for a one-voxel mask. -/
theorem compute_volume_value_on_nonpositive_spacing :
    compute_volume [true] (-1, 1, 1) = Except.ok (-1) := by
  have hc : countT [true] = 1 := by decide
  simp only [compute_volume, hc]
  norm_num

/-- Claim C1 (amended): the engines perform no structural validation of
their own.  `compute_volume` never raises — for every mask and every
spacing, non-positive components included, it returns
`count · s₁ · s₂ · s₃` as an ordinary value — and `extract_timeseries`
with a mask whose element count differs from the spatial element count
fails with the array library's untyped `IndexError`, there being no
`ShapeMismatch`/`InvalidSpacing` exception type in the repository. -/
theorem engines_error_behavior :
    (∀ (mask : List Bool) (s : ℚ × ℚ × ℚ),
       compute_volume mask s =
         Except.ok ((countT mask : ℚ) * (s.1 * s.2.1 * s.2.2))) ∧
    (∀ (img : Arr2) (mask : List Bool), mask.length ≠ img.cols →
       extract_timeseries img mask = Except.error PyExc.indexError) := by
  constructor
  · intro mask s
    rfl
  · intro img mask h
    unfold extract_timeseries
    rw [if_pos h]

/-- Witness for C1 (amended): a length-1 mask against a 3-column array
yields the `IndexError`. -/
theorem engines_error_behavior_witness :
    extract_timeseries ⟨2, 3, fun _ _ => 0⟩ [true] = Except.error PyExc.indexError :=
  engines_error_behavior.2 ⟨2, 3, fun _ _ => 0⟩ [true] (by decide)

theorem argwhere_all_false (m : Mask3) (h : ∀ i j k, m.val i j k = false) :
    argwhere m = [] := by
  simp [argwhere, h]

/-- Claim C5: `hausdorff_distance` is symmetric in its two masks for every
spacing, and returns `+inf` whenever either mask contains no true voxel. -/
theorem hausdorff_symm_and_empty :
    (∀ (m1 m2 : Mask3) (s : ℚ × ℚ × ℚ),
       hausdorff_distance m1 m2 s = hausdorff_distance m2 m1 s) ∧
    (∀ (m1 m2 : Mask3) (s : ℚ × ℚ × ℚ),
       ((∀ i j k, m1.val i j k = false) ∨ (∀ i j k, m2.val i j k = false)) →
       hausdorff_distance m1 m2 s = HDist.inf) := by
  constructor
  · intro m1 m2 s
    unfold hausdorff_distance
    by_cases h1 : (argwhere m1).length = 0 <;> by_cases h2 : (argwhere m2).length = 0 <;>
      simp [h1, h2, max_comm]
  · intro m1 m2 s h
    unfold hausdorff_distance
    rcases h with h | h
    · rw [argwhere_all_false m1 h]
      simp
    · rw [argwhere_all_false m2 h]
      simp

/-- Witness for C5: two all-false 1×1×1 masks give `+inf`. -/
theorem hausdorff_symm_and_empty_witness :
    hausdorff_distance ⟨1, 1, 1, fun _ _ _ => false⟩ ⟨1, 1, 1, fun _ _ _ => false⟩
      (1, 1, 1) = HDist.inf :=
  hausdorff_symm_and_empty.2 _ _ _ (Or.inl (fun _ _ _ => rfl))

theorem foldl_min_replicate (k : ℕ) (c : ℚ) :
    (List.replicate k c).foldl min c = c := by
  induction k with
  | zero => rfl
  | succ m ih =>
    rw [List.replicate_succ]
    simpa [min_self] using ih

theorem foldl_max_replicate (k : ℕ) (c : ℚ) :
    (List.replicate k c).foldl max c = c := by
  induction k with
  | zero => rfl
  | succ m ih =>
    rw [List.replicate_succ]
    simpa [max_self] using ih

theorem listMinQ_replicate (n : ℕ) (c : ℚ) (hn : 0 < n) :
    listMinQ (List.replicate n c) = c := by
  obtain ⟨m, rfl⟩ : ∃ m, n = m + 1 := ⟨n - 1, by omega⟩
  rw [List.replicate_succ]
  show (List.replicate m c).foldl min c = c
  exact foldl_min_replicate m c

theorem listMaxQ_replicate (n : ℕ) (c : ℚ) (hn : 0 < n) :
    listMaxQ (List.replicate n c) = c := by
  obtain ⟨m, rfl⟩ : ∃ m, n = m + 1 := ⟨n - 1, by omega⟩
  rw [List.replicate_succ]
  show (List.replicate m c).foldl max c = c
  exact foldl_max_replicate m c

theorem logb_two_64 : Real.logb 2 64 = 6 := by
  have h : (64 : ℝ) = 2 ^ (6 : ℕ) := by norm_num
  rw [h, Real.logb_pow, Real.logb_self_eq_one (by norm_num)]
  norm_num

theorem entropy_replicate (c : ℚ) (n : ℕ) (hn : 0 < n) :
    compute_entropy (List.replicate n c) 64 = PyR.num (-384) := by
  have hne : (List.replicate n c : List ℚ) ≠ [] := by
    rw [Ne, List.replicate_eq_nil_iff]
    omega
  have hnQ : ((n : ℕ) : ℚ) ≠ 0 := Nat.cast_ne_zero.mpr (by omega)
  have hmin := listMinQ_replicate n c hn
  have hmax := listMaxQ_replicate n c hn
  have hbin : binIdx (c - 1 / 2) ((c + 1 / 2 - (c - 1 / 2)) / ((64 : ℕ) : ℚ)) 64 c = 32 := by
    unfold binIdx
    have h32 : (c - (c - 1 / 2)) / ((c + 1 / 2 - (c - 1 / 2)) / ((64 : ℕ) : ℚ)) = 32 := by
      push_cast
      ring
    rw [h32]
    norm_num
    rfl
  have hhist : histogram (List.replicate n c) 64 =
      (List.range 64).map (fun i => if i = 32 then (64 : ℚ) else 0) := by
    simp only [histogram, hmin, hmax, eq_self_iff_true, if_true]
    refine List.map_congr_left ?_
    intro i _
    rw [List.countP_replicate, List.length_replicate]
    by_cases h32 : i = 32
    · subst h32
      rw [hbin]
      have hb : ((32 : ℕ) == (32 : ℕ)) = true := by decide
      rw [if_pos hb, if_pos rfl]
      have hw : (c + 1 / 2 - (c - 1 / 2)) / ((64 : ℕ) : ℚ) = 1 / 64 := by
        push_cast
        ring
      rw [hw]
      field_simp
    · rw [hbin]
      have hb : ((32 : ℕ) == i) = false := beq_eq_false_iff_ne.mpr (Ne.symm h32)
      rw [if_neg (by simp [hb]), if_neg h32]
      simp
  show (if (List.replicate n c : List ℚ) = [] then PyR.nan
    else PyR.num (-(((histogram (List.replicate n c) 64).filter
      (fun h => 0 < h)).map (fun h => (h : ℝ) * Real.logb 2 (h : ℝ))).sum)) = PyR.num (-384)
  rw [if_neg hne, hhist]
  have hfil : ((List.range 64).map (fun i => if i = 32 then (64 : ℚ) else 0)).filter
      (fun h => decide (0 < h)) = [(64 : ℚ)] := by
    rw [List.filter_map]
    have hcongr : (List.range 64).filter
        ((fun h : ℚ => decide (0 < h)) ∘ (fun i => if i = 32 then (64 : ℚ) else 0)) =
        (List.range 64).filter (fun i => i == 32) := by
      refine List.filter_congr ?_
      intro i _
      by_cases h32 : i = 32
      · subst h32
        norm_num [Function.comp]
      · have hb : (i == (32 : ℕ)) = false := beq_eq_false_iff_ne.mpr h32
        norm_num [Function.comp, h32, hb]
    rw [hcongr]
    have hr : (List.range 64).filter (fun i => i == 32) = [32] := by decide
    rw [hr]
    simp
  rw [hfil]
  have hsum : (([(64 : ℚ)]).map (fun h => (h : ℝ) * Real.logb 2 (h : ℝ))).sum = 384 := by
    norm_num [logb_two_64]
  rw [hsum]

/-- Counterexample for C2: the constant two-element sample `[5, 5]` has
entropy `-384` under the default 64 bins — a negative value, refuting both
non-negativity and the approach to 0 on constant samples. -/
theorem compute_entropy_negative_on_constant_sample :
    compute_entropy [5, 5] 64 = PyR.num (-384) ∧ (-384 : ℝ) < 0 := by
  constructor
  · have h := entropy_replicate 5 2 (by norm_num)
    simpa using h
  · norm_num

/-- Claim C2 (amended): because the histogram is density-normalized (its
values can exceed 1), `compute_entropy` is not non-negative in general: on
every constant-valued non-empty sample with the default 64 bins it returns
exactly `-(64·log2 64) = -384`, not a value approaching 0. -/
theorem entropy_constant_sample_value (c : ℚ) (n : ℕ) (hn : 0 < n) :
    compute_entropy (List.replicate n c) 64 = PyR.num (-384) :=
  entropy_replicate c n hn

/-- Witness for C2 (amended) at the constant sample of three sevens. -/
theorem entropy_constant_sample_value_witness :
    compute_entropy (List.replicate 3 7) 64 = PyR.num (-384) :=
  entropy_constant_sample_value 7 3 (by norm_num)

/-- Claim C7: `compute_temporal_features` reports `temporal_snr` as
`mean/std` of the curve whenever the standard deviation is positive, and
exactly `0` when the standard deviation is zero (e.g. a flat curve) —
never NaN or an infinity, which the value type rules out on this branch. -/
theorem temporal_snr_guarded :
    ∀ (welch : List ℚ → ℚ → List ℚ × List ℚ) (curve : List ℚ) (tr : Option ℚ),
      curve ≠ [] →
      (0 < npStd curve →
        List.lookup "temporal_snr" (compute_temporal_features welch curve tr) =
          some (((meanQ curve : ℚ) : ℝ) / npStd curve)) ∧
      (npStd curve = 0 →
        List.lookup "temporal_snr" (compute_temporal_features welch curve tr) =
          some 0) := by
  intro welch curve tr _
  constructor
  · intro h
    simp [compute_temporal_features, List.lookup, if_pos h]
  · intro h
    have hn : ¬(0 < npStd curve) := by
      rw [h]
      exact lt_irrefl 0
    simp [compute_temporal_features, List.lookup, if_neg hn]

/-- Witness for C7: a flat curve `[3, 3]` has `temporal_snr` exactly 0. -/
theorem temporal_snr_guarded_witness :
    List.lookup "temporal_snr"
      (compute_temporal_features (fun _ _ => ([], [])) [3, 3] none) = some 0 := by
  have hstd : npStd [3, 3] = 0 := by
    have hv : varQ [3, 3] = 0 := by norm_num [varQ, meanQ]
    simp [npStd, hv]
  exact (temporal_snr_guarded (fun _ _ => ([], [])) [3, 3] none (by decide)).2 hstd

/-- Claim C8: the key set of `compute_temporal_features` is exactly
determined by its inputs — the six base features are always present, the
three rate features are present iff the curve length exceeds 1, and the
three frequency features are present iff a (positive) sampling interval is
supplied and the curve length exceeds 4. -/
theorem temporal_features_key_set :
    ∀ (welch : List ℚ → ℚ → List ℚ × List ℚ) (curve : List ℚ) (tr : Option ℚ),
      curve ≠ [] → (∀ t : ℚ, tr = some t → 0 < t) →
      ("temporal_mean" ∈ (compute_temporal_features welch curve tr).map Prod.fst ∧
       "temporal_std" ∈ (compute_temporal_features welch curve tr).map Prod.fst ∧
       "temporal_snr" ∈ (compute_temporal_features welch curve tr).map Prod.fst ∧
       "max_change" ∈ (compute_temporal_features welch curve tr).map Prod.fst ∧
       "peak_value" ∈ (compute_temporal_features welch curve tr).map Prod.fst ∧
       "time_to_peak" ∈ (compute_temporal_features welch curve tr).map Prod.fst) ∧
      (("mean_rate" ∈ (compute_temporal_features welch curve tr).map Prod.fst ↔
          1 < curve.length) ∧
       ("max_rate" ∈ (compute_temporal_features welch curve tr).map Prod.fst ↔
          1 < curve.length) ∧
       ("min_rate" ∈ (compute_temporal_features welch curve tr).map Prod.fst ↔
          1 < curve.length)) ∧
      (("peak_frequency" ∈ (compute_temporal_features welch curve tr).map Prod.fst ↔
          tr ≠ none ∧ 4 < curve.length) ∧
       ("power_0_01Hz" ∈ (compute_temporal_features welch curve tr).map Prod.fst ↔
          tr ≠ none ∧ 4 < curve.length) ∧
       ("power_0_1Hz" ∈ (compute_temporal_features welch curve tr).map Prod.fst ↔
          tr ≠ none ∧ 4 < curve.length)) := by
  intro welch curve tr _ _
  cases tr with
  | none =>
    by_cases h1 : 1 < curve.length
    · simp [compute_temporal_features, h1]
    · simp [compute_temporal_features, h1]
  | some t =>
    by_cases h1 : 1 < curve.length
    · by_cases h4 : 4 < curve.length
      · simp [compute_temporal_features, h1, h4]
      · simp [compute_temporal_features, h1, h4]
    · have h4 : ¬4 < curve.length := by omega
      simp [compute_temporal_features, h1, h4]

/-- Witness for C8: with a positive interval and a length-5 curve the
frequency features are present. -/
theorem temporal_features_key_set_witness :
    "peak_frequency" ∈
      (compute_temporal_features (fun _ _ => ([0], [0])) [0, 1, 2, 3, 4]
        (some 1)).map Prod.fst := by
  have h := temporal_features_key_set (fun _ _ => ([0], [0])) [0, 1, 2, 3, 4] (some 1)
    (by decide) (by intro t ht; cases ht; norm_num)
  exact (h.2.2.1).mpr ⟨by simp, by norm_num⟩

theorem mem_zipWith {α β γ : Type} {f : α → β → γ} {l1 : List α} {l2 : List β}
    {x : γ} (hx : x ∈ List.zipWith f l1 l2) : ∃ a ∈ l1, ∃ b ∈ l2, x = f a b := by
  induction l1 generalizing l2 with
  | nil => cases hx
  | cons a as ih =>
    cases l2 with
    | nil => cases hx
    | cons b bs =>
      rw [List.zipWith_cons_cons] at hx
      rcases List.mem_cons.mp hx with h | h
      · exact ⟨a, List.mem_cons_self _ _, b, List.mem_cons_self _ _, h⟩
      · obtain ⟨a', ha', b', hb', hval⟩ := ih h
        exact ⟨a', List.mem_cons_of_mem _ ha', b', List.mem_cons_of_mem _ hb', hval⟩

theorem sum_zipWith_sub (l1 l2 : List ℚ) (h : l1.length = l2.length) :
    (List.zipWith (fun a b => b - a) l1 l2).sum = l2.sum - l1.sum := by
  induction l1 generalizing l2 with
  | nil =>
    cases l2 with
    | nil => simp
    | cons b bs => simp at h
  | cons a as ih =>
    cases l2 with
    | nil => simp at h
    | cons b bs =>
      rw [List.zipWith_cons_cons, List.sum_cons, List.sum_cons, List.sum_cons,
        ih bs (by simpa using h)]
      ring

theorem meanQ_zipWith_sub (l1 l2 : List ℚ) (n : ℕ) (h1 : l1.length = n)
    (h2 : l2.length = n) :
    meanQ (List.zipWith (fun a b => b - a) l1 l2) = meanQ l2 - meanQ l1 := by
  unfold meanQ
  rw [sum_zipWith_sub l1 l2 (by omega), List.length_zipWith, h1, h2, min_self,
    sub_div]

theorem meanQ_of_all_zero {l : List ℚ} (h : ∀ x ∈ l, x = 0) : meanQ l = 0 := by
  unfold meanQ
  rw [List.sum_eq_zero h, zero_div]

theorem varQ_of_all_zero {l : List ℚ} (h : ∀ x ∈ l, x = 0) : varQ l = 0 := by
  unfold varQ
  rw [List.sum_eq_zero, zero_div]
  intro y hy
  obtain ⟨x, hx, rfl⟩ := List.mem_map.mp hy
  rw [h x hx, meanQ_of_all_zero h]
  ring

theorem getD_eq_of_all {α : Type} {l : List α} {d : α} (h : ∀ x ∈ l, x = d)
    (i : ℕ) : l.getD i d = d := by
  by_cases hi : i < l.length
  · rw [List.getD_eq_getElem l d hi]
    exact h _ (List.getElem_mem hi)
  · exact List.getD_eq_default l d (by omega)

theorem meanDiffs_flat (ts : List (List ℚ)) (n : ℕ) (c : ℚ)
    (hlen : ∀ r ∈ ts, r.length = n) (hc : ∀ r ∈ ts, meanQ r = c) :
    ∀ x ∈ meanDiffs ts, x = 0 := by
  intro x hx
  unfold meanDiffs frameDiff at hx
  obtain ⟨d, hd, rfl⟩ := List.mem_map.mp hx
  obtain ⟨r1, hr1, r2, hr2, rfl⟩ := mem_zipWith hd
  have hr2' : r2 ∈ ts := List.mem_of_mem_tail hr2
  rw [meanQ_zipWith_sub r1 r2 n (hlen r1 hr1) (hlen r2 hr2'), hc r1 hr1,
    hc r2 hr2']
  ring

open scoped Classical in
/-- Claim C9: `detect_motion` on a time series whose per-timepoint
across-voxel mean curve is constant returns the empty list, for every
threshold (the z-scores of an all-zero difference curve are all NaN, and
NaN compares false against any threshold). -/
theorem detect_motion_flat :
    ∀ (ts : List (List ℚ)) (threshold : ℚ) (n : ℕ) (c : ℚ),
      0 < n → (∀ r ∈ ts, r.length = n) → (∀ r ∈ ts, meanQ r = c) →
      detect_motion ts threshold = [] := by
  intro ts threshold n c _ hlen hc
  have hzero : ∀ x ∈ meanDiffs ts, x = 0 := meanDiffs_flat ts n c hlen hc
  have hmean : meanQ (meanDiffs ts) = 0 := meanQ_of_all_zero hzero
  have hvar : varQ (meanDiffs ts) = 0 := varQ_of_all_zero hzero
  have hstd : npStd (meanDiffs ts) = 0 := by simp [npStd, hvar]
  have hz : ∀ v ∈ npZscore (meanDiffs ts), v = PyR.nan := by
    intro v hv
    unfold npZscore at hv
    obtain ⟨x, hx, rfl⟩ := List.mem_map.mp hv
    rw [hzero x hx, hmean, hstd]
    simp [pyDivR]
  show (List.range (npZscore (meanDiffs ts)).length).filter
    (fun i => decide (pyAbsGt ((npZscore (meanDiffs ts)).getD i PyR.nan) threshold)) = []
  refine List.filter_eq_nil_iff.mpr ?_
  intro i _
  rw [getD_eq_of_all hz i]
  simp [pyAbsGt]

/-- Witness for C9: three identical time rows produce no motion flags. -/
theorem detect_motion_flat_witness :
    detect_motion [[1, 1], [1, 1], [1, 1]] 2 = [] :=
  detect_motion_flat [[1, 1], [1, 1], [1, 1]] 2 2 1 (by norm_num) (by decide)
    (by
      intro r hr
      fin_cases hr <;> norm_num [meanQ])

open scoped Classical in
/-- Claim C10: for every input and threshold, the list `detect_motion`
returns is strictly increasing, and (when there is at least one time point)
every index in it is at most `T - 2` — indices refer to the length-`(T-1)`
first-difference series. -/
theorem detect_motion_indices_sorted_bounded :
    ∀ (ts : List (List ℚ)) (threshold : ℚ), 1 ≤ ts.length →
      List.Pairwise (· < ·) (detect_motion ts threshold) ∧
      ∀ i ∈ detect_motion ts threshold, i ≤ ts.length - 2 := by
  intro ts threshold _
  have hlen : (npZscore (meanDiffs ts)).length = ts.length - 1 := by
    simp only [npZscore, List.length_map, meanDiffs, frameDiff,
      List.length_zipWith, List.length_tail]
    exact min_eq_right (Nat.sub_le _ _)
  constructor
  · show List.Pairwise (· < ·) ((List.range (npZscore (meanDiffs ts)).length).filter
      (fun i => decide (pyAbsGt ((npZscore (meanDiffs ts)).getD i PyR.nan) threshold)))
    exact (List.pairwise_lt_range _).filter _
  · intro i hi
    have hi' : i ∈ (List.range (npZscore (meanDiffs ts)).length).filter
        (fun i => decide (pyAbsGt ((npZscore (meanDiffs ts)).getD i PyR.nan) threshold)) := hi
    have hr := List.mem_range.mp (List.mem_filter.mp hi').1
    rw [hlen] at hr
    omega

/-- Witness for C10 at a two-timepoint series. -/
theorem detect_motion_indices_sorted_bounded_witness :
    List.Pairwise (· < ·) (detect_motion [[1], [2]] 0) ∧
    ∀ i ∈ detect_motion [[1], [2]] 0, i ≤ ([[1], [2]] : List (List ℚ)).length - 2 :=
  detect_motion_indices_sorted_bounded [[1], [2]] 0 (by norm_num)
